import Mathlib

/-!
Verification of the nextdns-blocker schedule-evaluation and reconciliation
core against its natural-language specification.

The repository ships two implementations of the same components:

* the current package `src/nextdns_blocker/` (`scheduler.py`, `client.py`,
  `cli.py`), embedded below in the namespaces `Scheduler`, `Client`, `Cli`;
* a legacy single-file `nextdns_blocker.py`, embedded in namespace `Legacy`.

Python `datetime.now(tz)` is modelled by an explicit `Instant` argument
(weekday index 0-6, Monday = 0, plus a time of day), Python `float`
timestamps by `ℤ` (whole seconds; the code applies only ordered-ring operations and comparisons to them, so no verified property depends on sub-second resolution), exceptions by `Except String`, and `None` by `Option`.
Python `str.lower` is modelled for ASCII letters, and Python `int(...)`
for optionally signed decimal digit strings, which covers every string
these developments are evaluated on.
-/

deriving instance DecidableEq for Except

/-- A Python `datetime.time` value restricted to the two fields the code
uses; Python compares `time` objects lexicographically. -/
structure PyTime where
  hour : Nat
  minute : Nat
deriving DecidableEq

/-- Python `<=` on `time` objects (lexicographic on (hour, minute)). -/
def timeLe (a b : PyTime) : Bool :=
  a.hour.blt b.hour || (a.hour.beq b.hour && a.minute.ble b.minute)

/-- Python `<` on `time` objects (lexicographic on (hour, minute)). -/
def timeLt (a b : PyTime) : Bool :=
  a.hour.blt b.hour || (a.hour.beq b.hour && a.minute.blt b.minute)

/-- Minutes since midnight, the arithmetic reading of a time of day. -/
def PyTime.toM (t : PyTime) : Nat := 60 * t.hour + t.minute

/-- ASCII lower-casing of one character (models `str.lower` on the
ASCII day names the configuration format uses). -/
def lowerChar (c : Char) : Char :=
  if 'A' ≤ c ∧ c ≤ 'Z' then Char.ofNat (c.toNat + 32) else c

/-- ASCII `str.lower`. -/
def strLower (s : String) : String := ⟨s.data.map lowerChar⟩

/-- Split a character list at every occurrence of `sep`
(Python `split` on a single-character separator). -/
def splitOnChar (sep : Char) : List Char → List (List Char)
  | [] => [[]]
  | c :: rest =>
    match splitOnChar sep rest with
    | [] => if c = sep then [[], []] else [[c]]
    | p :: ps => if c = sep then [] :: p :: ps else (c :: p) :: ps

/-- All-digit parse of a nonempty character list
(the digit core of Python `int`). -/
def parseDigits : List Char → Option Nat
  | [] => none
  | cs => cs.foldl
      (fun acc c =>
        match acc with
        | none => none
        | some n => if c.isDigit then some (10 * n + (c.toNat - '0'.toNat)) else none)
      (some 0)

/-- Python `int(s)` on an optionally signed decimal string. -/
def parseInt : List Char → Option Int
  | [] => none
  | '-' :: rest => (parseDigits rest).map (fun n => -(n : Int))
  | '+' :: rest => (parseDigits rest).map (fun n => (n : Int))
  | cs => (parseDigits cs).map (fun n => (n : Int))

/-- A `{"start": .., "end": ..}` time-range object from the schedule wire
format; `stop` embeds the `"end"` key (`end` is reserved in Lean). -/
structure TimeRange where
  start : String
  stop : String
deriving DecidableEq

/-- An `available_hours` block: `days` plus `time_ranges`, both with the
Python `.get(key, [])` default applied by the callers. -/
structure AvailBlock where
  days : List String
  time_ranges : List TimeRange
deriving DecidableEq

/-- A schedule dict; `available_hours = none` models a dict without the
`available_hours` key (and `⟨none⟩`-vs-`none` models `{}` vs `None`). -/
structure Schedule where
  available_hours : Option (List AvailBlock)
deriving DecidableEq

/-- An instant as the evaluator sees it: `weekday()` (Monday = 0) and
`time()` of `datetime.now(tz)`. -/
structure Instant where
  weekday : Nat
  time : PyTime
deriving DecidableEq

/-- Embeds `list(DAYS_MAP.keys())` from `common.py`. -/
def dayKeys : List String :=
  ["monday", "tuesday", "wednesday", "thursday", "friday", "saturday", "sunday"]

/-- Embeds `list(DAYS_MAP.keys())[w]` for a weekday index. -/
def dayName (w : Nat) : String := dayKeys.getD w ""

namespace Scheduler

/-- Embeds `ScheduleEvaluator.parse_time` from `scheduler.py` lines 34-66:
empty / colon-free / not exactly two `int` parts / out-of-bounds
hour or minute raise `ValueError`. -/
def parse_time (time_str : String) : Except String PyTime :=
  if time_str.data = [] then .error ("Invalid time format: " ++ time_str)
  else if ':' ∉ time_str.data then .error ("Invalid time format: " ++ time_str)
  else
    match splitOnChar ':' time_str.data with
    | [hs, ms] =>
      match parseInt hs, parseInt ms with
      | some hours, some minutes =>
        if 0 ≤ hours ∧ hours ≤ 23 ∧ 0 ≤ minutes ∧ minutes ≤ 59 then
          .ok ⟨hours.toNat, minutes.toNat⟩
        else .error ("Invalid time format: " ++ time_str)
      | _, _ => .error ("Invalid time format: " ++ time_str)
    | _ => .error ("Invalid time format: " ++ time_str)

/-- Embeds `ScheduleEvaluator.is_time_in_range` from `scheduler.py` lines 68-92:
same-day ranges are inclusive on both ends; overnight ranges use
`current >= start or current <= end`. -/
def is_time_in_range (current start stop : PyTime) : Bool :=
  if timeLe start stop then timeLe start current && timeLe current stop
  else timeLe start current || timeLe current stop

/-- The inner loop over `block.get("time_ranges", [])` of
`should_block`: first matching range returns available; parse errors
propagate. -/
def checkRanges (current : PyTime) : List TimeRange → Except String Bool
  | [] => .ok false
  | r :: rs =>
    match parse_time r.start with
    | .error e => .error e
    | .ok s =>
      match parse_time r.stop with
      | .error e => .error e
      | .ok e => if is_time_in_range current s e then .ok true else checkRanges current rs

/-- The outer loop over `schedule.get("available_hours", [])` of
`should_block` for the current day. -/
def checkBlocks (day : String) (current : PyTime) : List AvailBlock → Except String Bool
  | [] => .ok false
  | b :: bs =>
    if day ∈ b.days.map strLower then
      match checkRanges current b.time_ranges with
      | .error e => .error e
      | .ok true => .ok true
      | .ok false => checkBlocks day current bs
    else checkBlocks day current bs

/-- The range loop of `_check_overnight_yesterday` (`scheduler.py` lines
121-129): only overnight ranges (`start > end`) are considered and the
match test is `current_time <= end`. -/
def checkRangesY (current : PyTime) : List TimeRange → Except String Bool
  | [] => .ok false
  | r :: rs =>
    match parse_time r.start with
    | .error e => .error e
    | .ok s =>
      match parse_time r.stop with
      | .error e => .error e
      | .ok e =>
        if timeLt e s then
          if timeLe current e then .ok true else checkRangesY current rs
        else checkRangesY current rs

/-- The block loop of `_check_overnight_yesterday`. -/
def checkBlocksY (day : String) (current : PyTime) : List AvailBlock → Except String Bool
  | [] => .ok false
  | b :: bs =>
    if day ∈ b.days.map strLower then
      match checkRangesY current b.time_ranges with
      | .error e => .error e
      | .ok true => .ok true
      | .ok false => checkBlocksY day current bs
    else checkBlocksY day current bs

/-- Embeds `ScheduleEvaluator.should_block` from `scheduler.py` lines 133-168,
with `datetime.now(self.tz)` passed explicitly as `now`. -/
def should_block (schedule : Option Schedule) (now : Instant) : Except String Bool :=
  match schedule with
  | none => .ok true
  | some s =>
    match s.available_hours with
    | none => .ok true
    | some blocks =>
      match checkBlocks (dayName now.weekday) now.time blocks with
      | .error e => .error e
      | .ok true => .ok false
      | .ok false =>
        match checkBlocksY (dayName ((now.weekday + 6) % 7)) now.time blocks with
        | .error e => .error e
        | .ok true => .ok false
        | .ok false => .ok true

end Scheduler

namespace Legacy

/-- Embeds `ScheduleEvaluator.parse_time` from `nextdns_blocker.py` lines
1247-1269 (`hour, minute = map(int, time_str.split(':'))` plus bounds
checks); it accepts and rejects exactly the same strings as the package
version. -/
def parse_time (time_str : String) : Except String PyTime :=
  if time_str.data = [] ∨ ':' ∉ time_str.data then
    .error ("Invalid time format: " ++ time_str)
  else
    match splitOnChar ':' time_str.data with
    | [hs, ms] =>
      match parseInt hs, parseInt ms with
      | some hour, some minute =>
        if 0 ≤ hour ∧ hour ≤ 23 ∧ 0 ≤ minute ∧ minute ≤ 59 then
          .ok ⟨hour.toNat, minute.toNat⟩
        else .error ("Time out of range: " ++ time_str)
      | _, _ => .error ("Invalid time: " ++ time_str)
    | _ => .error ("Invalid time: " ++ time_str)

/-- Embeds `ScheduleEvaluator.is_time_in_range` from `nextdns_blocker.py` lines
1271-1299: the overnight morning segment uses the documented exclusive
bound `current < end`. -/
def is_time_in_range (current start stop : PyTime) : Bool :=
  if timeLe start stop then timeLe start current && timeLe current stop
  else timeLe start current || timeLt current stop

/-- Embeds `DAYS_MAP[d]` from `nextdns_blocker.py` (`none` models `KeyError`). -/
def daysMapLookup (d : String) : Option Nat :=
  dayKeys.indexOf? d

/-- Embeds the comprehension over `DAYS_MAP` and `block.get("days", [])`
of the legacy `should_block`; `none` models the `KeyError` raised by an
invalid day name. -/
def daysMapAll : List String → Option (List Nat)
  | [] => some []
  | d :: ds =>
    match daysMapLookup (strLower d), daysMapAll ds with
    | some i, some is => some (i :: is)
    | _, _ => none

/-- Outcome of the legacy inner time-range loop: return blocked (on a
caught `KeyError`/`ValueError`), return available, or fall through. -/
inductive LoopOut
  | retTrue
  | retFalse
  | fall
deriving DecidableEq

/-- The inner range loop of the legacy `should_block` (lines 1329-1337):
a parse error is caught and turns into `return True`. -/
def rangesLoop (current : PyTime) : List TimeRange → LoopOut
  | [] => .fall
  | r :: rs =>
    match parse_time r.start, parse_time r.stop with
    | .ok s, .ok e =>
      if is_time_in_range current s e then .retFalse else rangesLoop current rs
    | _, _ => .retTrue

/-- The block loop of the legacy `should_block` (lines 1319-1337): a
`KeyError` on a day name means `return True`. -/
def blocksLoop (currentDay : Nat) (current : PyTime) : List AvailBlock → Bool
  | [] => true
  | b :: bs =>
    match daysMapAll b.days with
    | none => true
    | some ds =>
      if currentDay ∈ ds then
        match rangesLoop current b.time_ranges with
        | .retFalse => false
        | .retTrue => true
        | .fall => blocksLoop currentDay current bs
      else blocksLoop currentDay current bs

/-- Embeds `ScheduleEvaluator.should_block` from `nextdns_blocker.py` lines
1301-1340; it has no previous-day overnight check and never raises on
malformed schedule contents. -/
def should_block (schedule : Option Schedule) (now : Instant) : Bool :=
  match schedule with
  | none => true
  | some s =>
    match s.available_hours with
    | none => true
    | some blocks => blocksLoop now.weekday now.time blocks

end Legacy

/-- Modelled from the spec: the range-membership formula of §4.1 /
claim C1 — same-day ranges inclusive on both ends, overnight ranges
`currentTime >= start` OR `currentTime < end` with the morning end
bound exclusive — read over minutes-since-midnight arithmetic. -/
def specRangeMembership (current start stop : PyTime) : Prop :=
  if start.toM ≤ stop.toM then start.toM ≤ current.toM ∧ current.toM ≤ stop.toM
  else start.toM ≤ current.toM ∨ current.toM < stop.toM

instance (current start stop : PyTime) : Decidable (specRangeMembership current start stop) := by
  unfold specRangeMembership
  infer_instance

namespace Client

/-- State of the `RateLimiter` from `client.py` lines 36-53; timestamps are
Python floats, modelled as `ℤ`. -/
structure RateLimiter where
  max_requests : Nat
  window_seconds : ℤ
  requests : List ℤ
deriving DecidableEq

/-- Embeds `RateLimiter()` with `RATE_LIMIT_REQUESTS = 30`,
`RATE_LIMIT_WINDOW = 60`. -/
def RateLimiter.init : RateLimiter := ⟨30, 60, []⟩

/-- Embeds `RateLimiter.acquire` from `client.py` lines 55-80, with
`datetime.now().timestamp()` passed explicitly as `now` and `sleep`
modelled as advancing the clock by exactly the waited amount. Returns
the waited seconds and the new state. (With the default
`max_requests = 30 > 0` the `self.requests[0]` access is always on a
nonempty list, as in the source.) -/
def RateLimiter.acquire (st : RateLimiter) (now : ℤ) : ℤ × RateLimiter :=
  let cutoff := now - st.window_seconds
  let reqs := st.requests.filter (fun ts => decide (cutoff < ts))
  if st.max_requests ≤ reqs.length then
    let wait_time := reqs.headD 0 - cutoff
    if 0 < wait_time then
      (wait_time, ⟨st.max_requests, st.window_seconds, reqs ++ [now + wait_time]⟩)
    else (0, ⟨st.max_requests, st.window_seconds, reqs ++ [now]⟩)
  else (0, ⟨st.max_requests, st.window_seconds, reqs ++ [now]⟩)

/-- A `{"id": .., "active": ..}` entry of a denylist/allowlist `data`
array. -/
structure Entry where
  id : String
  active : Bool
deriving DecidableEq

/-- State of the `DenylistCache` from `client.py` lines 87-100 (the
`AllowlistCache` at lines 148-206 is char-for-char identical): `_data`,
the `_domains` set (a deduplicated list here), `_timestamp`, `ttl`. -/
structure DenylistCache where
  ttl : ℤ
  _data : Option (List Entry)
  _domains : List String
  _timestamp : ℤ
deriving DecidableEq

/-- Embeds the `DenylistCache(ttl)` constructor. -/
def DenylistCache.init (ttl : ℤ) : DenylistCache := ⟨ttl, none, [], 0⟩

/-- Embeds `DenylistCache.is_valid`, with `datetime.now().timestamp()` passed
explicitly. -/
def DenylistCache.is_valid (st : DenylistCache) (now : ℤ) : Bool :=
  st._data.isSome && decide (now - st._timestamp < st.ttl)

/-- Embeds `DenylistCache.get`. -/
def DenylistCache.get (st : DenylistCache) (now : ℤ) : Option (List Entry) :=
  if st.is_valid now then st._data else none

/-- Embeds `DenylistCache.set`: the `_domains` set comprehension of the
entry ids becomes a deduplicated id list. -/
def DenylistCache.set (st : DenylistCache) (now : ℤ) (data : List Entry) : DenylistCache :=
  ⟨st.ttl, some data, (data.map (fun e => e.id)).dedup, now⟩

/-- Embeds `DenylistCache.contains`: `none` while the cache is invalid. -/
def DenylistCache.contains (st : DenylistCache) (domain : String) (now : ℤ) : Option Bool :=
  if st.is_valid now then some (decide (domain ∈ st._domains)) else none

/-- Embeds `DenylistCache.invalidate`. -/
def DenylistCache.invalidate (st : DenylistCache) : DenylistCache :=
  ⟨st.ttl, none, [], 0⟩

/-- Embeds `DenylistCache.add_domain`: a set-insert into `_domains` only (and
only while `_data` is present); `_data` and `_timestamp` are untouched. -/
def DenylistCache.add_domain (st : DenylistCache) (domain : String) : DenylistCache :=
  if st._data.isSome then
    if domain ∈ st._domains then st
    else ⟨st.ttl, st._data, domain :: st._domains, st._timestamp⟩
  else st

/-- Embeds `DenylistCache.remove_domain`, a set-discard on `_domains`. -/
def DenylistCache.remove_domain (st : DenylistCache) (domain : String) : DenylistCache :=
  ⟨st.ttl, st._data, st._domains.erase domain, st._timestamp⟩

/-- The outcome one HTTP attempt of `NextDNSClient.request` can have:
a 2xx response with a JSON body (abstracted to a `Nat` payload),
a 2xx response whose body fails to parse as JSON,
`requests.exceptions.Timeout`, an `HTTPError` with a status code
(`status = 0` models a missing `e.response`), or any other
`RequestException` (connection errors and similar). -/
inductive Outcome
  | success (v : Nat)
  | badJson
  | timeout
  | httpError (status : Nat)
  | reqError
deriving DecidableEq

/-- Embeds `NextDNSClient._calculate_backoff` from `client.py` lines 243-254:
`min(BACKOFF_BASE * 2 ** attempt, BACKOFF_MAX)` with base 1.0 and cap
30.0. -/
def backoff (attempt : Nat) : ℤ := min (1 * 2 ^ attempt) 30

/-- Result of a `request` run: the returned value (`none` for failure),
the number of attempts issued, and the backoff sleeps performed. -/
structure RunResult where
  result : Option Nat
  attempts : Nat
  waits : List ℤ
deriving DecidableEq

/-- Prefix a backoff sleep onto a run. -/
def withWait (w : ℤ) (r : RunResult) : RunResult :=
  ⟨r.result, r.attempts, w :: r.waits⟩

/-- The retry loop of `NextDNSClient.request` (`client.py` lines
275-348), starting at attempt index `a` with `rem = retries - a`
attempts still allowed after this one; `script k` is what the network
does on attempt `k`. Timeouts, HTTP 429/5xx, and other
`RequestException`s retry after `backoff a` while attempts remain;
other HTTP errors and JSON decode errors return `None` at once. -/
def runFrom (script : Nat → Outcome) : Nat → Nat → RunResult
  | a, 0 =>
    match script a with
    | .success v => ⟨some v, a + 1, []⟩
    | _ => ⟨none, a + 1, []⟩
  | a, rem + 1 =>
    match script a with
    | .success v => ⟨some v, a + 1, []⟩
    | .badJson => ⟨none, a + 1, []⟩
    | .timeout => withWait (backoff a) (runFrom script (a + 1) rem)
    | .httpError status =>
      if status = 429 ∨ (500 ≤ status ∧ status < 600) then
        withWait (backoff a) (runFrom script (a + 1) rem)
      else ⟨none, a + 1, []⟩
    | .reqError => withWait (backoff a) (runFrom script (a + 1) rem)

/-- Embeds `NextDNSClient.request` with `retries` extra attempts allowed
(`for attempt in range(self.retries + 1)`). -/
def request (retries : Nat) (script : Nat → Outcome) : RunResult :=
  runFrom script 0 retries

/-- The outcome classes the code retries on. -/
def retryable : Outcome → Bool
  | .timeout => true
  | .reqError => true
  | .httpError status => decide (status = 429 ∨ (500 ≤ status ∧ status < 600))
  | _ => false

end Client

/-- One entry of the `domains` configuration list: `d["domain"]`,
`d.get("schedule")`, `d.get("protected", False)`. -/
structure DomainConfig where
  domain : String
  schedule : Option Schedule
  «protected» : Bool
deriving DecidableEq

/-- Embeds `get_protected_domains` from `config.py` lines 626-636 (identical in
`nextdns_blocker.py` lines 1347-1357). -/
def get_protected_domains (domains : List DomainConfig) : List String :=
  (domains.filter (fun d => d.«protected»)).map (fun d => d.domain)

/-- A reconciliation action, in the order it is emitted/applied. -/
inductive SyncAction
  | block (domain : String)
  | unblock (domain : String)
  | allow (domain : String)
deriving DecidableEq

namespace Cli

/-- The denylist loop of the package `sync` command (`cli.py` lines
327-357), run over a current denylist membership `deny` (reads through
the cache of the client; writes update it optimistically, so later domains
see earlier writes). Schedule-evaluation errors propagate out of the
command as in the source. Returns the emitted actions and the final
denylist membership. -/
def syncDeny («protected» : List String) (now : Instant) :
    List DomainConfig → List String → Except String (List SyncAction × List String)
  | [], deny => .ok ([], deny)
  | dc :: rest, deny =>
    match Scheduler.should_block dc.schedule now with
    | .error e => .error e
    | .ok sb =>
      if sb ∧ dc.domain ∉ deny then
        match syncDeny «protected» now rest (dc.domain :: deny) with
        | .error e => .error e
        | .ok (acts, d) => .ok (.block dc.domain :: acts, d)
      else if ¬sb ∧ dc.domain ∈ deny then
        if dc.domain ∈ «protected» then syncDeny «protected» now rest deny
        else
          match syncDeny «protected» now rest (deny.erase dc.domain) with
          | .error e => .error e
          | .ok (acts, d) => .ok (.unblock dc.domain :: acts, d)
      else syncDeny «protected» now rest deny

/-- The allowlist loop of the package `sync` command (`cli.py` lines
359-367), run over a current allowlist membership. -/
def syncAllow : List String → List String → List SyncAction
  | [], _ => []
  | d :: rest, allowSt =>
    if d ∈ allowSt then syncAllow rest allowSt
    else .allow d :: syncAllow rest (d :: allowSt)

/-- The package `sync` command (`cli.py` lines 296-375) reduced to its
reconciliation core: the denylist loop runs first, then the allowlist
loop. `deny`/`allowSt` are the remote memberships at the start of the
pass; API calls are modelled as succeeding. -/
def sync (domains : List DomainConfig) (allowlist : List String)
    (deny allowSt : List String) (now : Instant) : Except String (List SyncAction) :=
  let «protected» := get_protected_domains domains
  match syncDeny «protected» now domains deny with
  | .error e => .error e
  | .ok (dacts, _) => .ok (dacts ++ syncAllow allowlist allowSt)

end Cli

namespace Legacy

/-- The `SYNC ALLOWLIST FIRST` loop of `cmd_sync` (`nextdns_blocker.py`
lines 1482-1510). -/
def syncAllowlist : List String → List String → List SyncAction
  | [], _ => []
  | d :: rest, allowSt =>
    if d ∈ allowSt then syncAllowlist rest allowSt
    else .allow d :: syncAllowlist rest (d :: allowSt)

/-- The protected-domain reassert loop of `cmd_sync` (lines 1516-1535):
every protected domain missing from the denylist is re-blocked,
regardless of schedule. -/
def syncProtected : List String → List String → List SyncAction × List String
  | [], deny => ([], deny)
  | p :: rest, deny =>
    if p ∈ deny then syncProtected rest deny
    else
      match syncProtected rest (p :: deny) with
      | (acts, d) => (.block p :: acts, d)

/-- The scheduled-domain loop of `cmd_sync` (lines 1537-1577); protected
domains were already handled and are skipped. -/
def syncScheduled («protected» : List String) (now : Instant) :
    List DomainConfig → List String → List SyncAction × List String
  | [], deny => ([], deny)
  | dc :: rest, deny =>
    if dc.domain ∈ «protected» then syncScheduled «protected» now rest deny
    else
      let sb := Legacy.should_block dc.schedule now
      if sb ∧ dc.domain ∉ deny then
        match syncScheduled «protected» now rest (dc.domain :: deny) with
        | (acts, d) => (.block dc.domain :: acts, d)
      else if ¬sb ∧ dc.domain ∈ deny then
        match syncScheduled «protected» now rest (deny.erase dc.domain) with
        | (acts, d) => (.unblock dc.domain :: acts, d)
      else syncScheduled «protected» now rest deny

/-- Embeds `cmd_sync` from `nextdns_blocker.py` lines 1431-1601 reduced to its
reconciliation core: allowlist first, then protected reassert, then
scheduled domains; `protected` is `get_protected_domains(domains)` at
the call site. API calls are modelled as succeeding. -/
def cmd_sync (domains : List DomainConfig) (allowlist : List String)
    («protected» : List String) (deny allowSt : List String) (now : Instant) : List SyncAction :=
  let aacts := syncAllowlist allowlist allowSt
  let pd := syncProtected «protected» deny
  let sd := syncScheduled «protected» now domains pd.2
  aacts ++ pd.1 ++ sd.1

end Legacy

/-! ### Concrete fixtures used by the claim theorems -/

/-- The spec §8 overnight example: `22:00-02:00` listed for Monday
(day D) only. -/
def overnightSched : Schedule := ⟨some [⟨["monday"], [⟨"22:00", "02:00"⟩]⟩]⟩

/-- A schedule whose Monday block has a malformed start time. -/
def badMondaySched : Schedule := ⟨some [⟨["monday"], [⟨"bad", "10:00"⟩]⟩]⟩

/-- A schedule granting availability all of Monday. -/
def alwaysMonSched : Schedule := ⟨some [⟨["monday"], [⟨"00:00", "23:59"⟩]⟩]⟩

/-- The spec §8 weekday schedule: Monday `09:00-17:00`. -/
def monWorkSched : Schedule := ⟨some [⟨["monday"], [⟨"09:00", "17:00"⟩]⟩]⟩

/-- Whether the package `parse_time` rejects a time string. -/
def parseFails (s : String) : Bool :=
  match Scheduler.parse_time s with
  | .ok _ => false
  | .error _ => true

/-- The rate-limiter state after 30 calls at seconds `0..29` starting
from the default `RateLimiter()` (30 requests / 60 s window). -/
def after30Calls : Client.RateLimiter :=
  (List.range 30).foldl (fun st t => (Client.RateLimiter.acquire st (t : ℤ)).2)
    Client.RateLimiter.init

/-- The cache operations of claim C9 that replace the whole cache state
(`set`, `invalidate`); the optimistic `add_domain`/`remove_domain` are
deliberately not included — see the C9 counterexample. -/
inductive CacheOp
  | set (t : ℤ) (v : List Client.Entry)
  | invalidate
deriving DecidableEq

/-- Apply one cache operation. -/
def applyCacheOp (st : Client.DenylistCache) : CacheOp → Client.DenylistCache
  | .set t v => st.set t v
  | .invalidate => st.invalidate

/-- Apply a sequence of cache operations to a fresh cache. -/
def applyCacheOps (st : Client.DenylistCache) (ops : List CacheOp) : Client.DenylistCache :=
  ops.foldl applyCacheOp st

/-- The internal-consistency invariant of claim C9: the membership set
is exactly the ids of the cached data. -/
def cacheConsistent (st : Client.DenylistCache) : Prop :=
  st._domains = (match st._data with
    | some v => (v.map (fun e => e.id)).dedup
    | none => [])

/-! ### Helper lemmas -/

theorem timeLe_iff_toM (a b : PyTime) (ha : a.minute < 60) (hb : b.minute < 60) :
    timeLe a b = true ↔ a.toM ≤ b.toM := by
  simp only [timeLe, PyTime.toM, Bool.or_eq_true, Bool.and_eq_true, Nat.blt_eq,
    Nat.ble_eq, Nat.beq_eq]
  omega

theorem timeLt_iff_toM (a b : PyTime) (ha : a.minute < 60) (hb : b.minute < 60) :
    timeLt a b = true ↔ a.toM < b.toM := by
  simp only [timeLt, PyTime.toM, Bool.or_eq_true, Bool.and_eq_true, Nat.blt_eq,
    Nat.beq_eq]
  omega

/-! ### Claim theorems -/

/-- Claim C1 (code_bug): the claimed range-membership test — same-day
inclusive on both ends, overnight `current >= start` OR `current < end`
with the morning end bound exclusive — is exactly what the legacy
`nextdns_blocker.py` `is_time_in_range` computes (first conjunct, for
all well-formed times), but the current package `scheduler.py`
`is_time_in_range` uses an inclusive morning bound: at
`current = end = 02:00` with `start = 22:00` it reports the time in
range, which the claimed membership test denies. -/
theorem c1_range_membership :
    (∀ current start stop : PyTime, current.minute < 60 → start.minute < 60 →
      stop.minute < 60 →
      (Legacy.is_time_in_range current start stop = true ↔
        specRangeMembership current start stop)) ∧
    Scheduler.is_time_in_range ⟨2, 0⟩ ⟨22, 0⟩ ⟨2, 0⟩ = true ∧
    ¬ specRangeMembership ⟨2, 0⟩ ⟨22, 0⟩ ⟨2, 0⟩ := by
  refine ⟨?_, by decide, by decide⟩
  intro current start stop hc hs he
  unfold Legacy.is_time_in_range specRangeMembership
  by_cases h : start.toM ≤ stop.toM
  · rw [if_pos ((timeLe_iff_toM start stop hs he).mpr h), if_pos h]
    simp only [Bool.and_eq_true, timeLe_iff_toM start current hs hc,
      timeLe_iff_toM current stop hc he]
  · rw [if_neg (fun hb => h ((timeLe_iff_toM start stop hs he).mp hb)), if_neg h]
    simp only [Bool.or_eq_true, timeLe_iff_toM start current hs hc,
      timeLt_iff_toM current stop hc he]

/-- Claim C1 witness: the legacy membership test agrees with the claimed
formula at a concrete well-formed input. -/
theorem c1_range_membership_witness :
    (PyTime.mk 23 0).minute < 60 ∧
      (Legacy.is_time_in_range ⟨23, 0⟩ ⟨22, 0⟩ ⟨2, 0⟩ = true ↔
        specRangeMembership ⟨23, 0⟩ ⟨22, 0⟩ ⟨2, 0⟩) :=
  ⟨by decide, c1_range_membership.1 ⟨23, 0⟩ ⟨22, 0⟩ ⟨2, 0⟩ (by decide) (by decide) (by decide)⟩

/-- Claim C2 (code_bug): a protected domain absent from the denylist
whose schedule currently grants availability (Monday 10:00, available
all Monday). The legacy `cmd_sync` re-blocks it as the claim demands;
the package `sync` command emits no action at all, because it lost the
protected-reassert step and only blocks when the schedule says
"blocked". -/
theorem c2_protected_reassert_divergence :
    Cli.sync [⟨"p.example.com", some alwaysMonSched, true⟩] [] [] [] ⟨0, ⟨10, 0⟩⟩ =
      .ok [] ∧
    Legacy.cmd_sync [⟨"p.example.com", some alwaysMonSched, true⟩] []
      (get_protected_domains [⟨"p.example.com", some alwaysMonSched, true⟩]) [] []
      ⟨0, ⟨10, 0⟩⟩ = [.block "p.example.com"] := by
  constructor
  · decide
  · decide

/-- Claim C3 (code_bug): a pass that must add one allowlist exception and
remove one denylist entry. The legacy `cmd_sync` applies the `Allow`
before the `Unblock` as the claim demands; the package `sync` command
runs its denylist loop first, so the `Unblock` is applied before the
allowlist exception is registered. -/
theorem c3_allowlist_order_divergence :
    Cli.sync [⟨"a.example.com", some monWorkSched, false⟩] ["w.example.com"]
      ["a.example.com"] [] ⟨0, ⟨10, 0⟩⟩ =
      .ok [.unblock "a.example.com", .allow "w.example.com"] ∧
    Legacy.cmd_sync [⟨"a.example.com", some monWorkSched, false⟩] ["w.example.com"]
      [] ["a.example.com"] [] ⟨0, ⟨10, 0⟩⟩ =
      [.allow "w.example.com", .unblock "a.example.com"] := by
  constructor
  · decide
  · decide

/-- Claim C4 (code_bug): for the overnight range `22:00-02:00` on Monday
(day D), the package `should_block` gives: D 23:00 available, D+1 01:00
available via the yesterday-check, D 12:00 blocked — as claimed — but
D+1 02:00 is also available (`current_time <= end` is inclusive),
where the claim demands blocked; blocking resumes at D+1 02:01. -/
theorem c4_yesterday_overnight_boundary :
    Scheduler.should_block (some overnightSched) ⟨0, ⟨23, 0⟩⟩ = .ok false ∧
    Scheduler.should_block (some overnightSched) ⟨1, ⟨1, 0⟩⟩ = .ok false ∧
    Scheduler.should_block (some overnightSched) ⟨0, ⟨12, 0⟩⟩ = .ok true ∧
    Scheduler.should_block (some overnightSched) ⟨1, ⟨2, 0⟩⟩ = .ok false ∧
    Scheduler.should_block (some overnightSched) ⟨1, ⟨2, 1⟩⟩ = .ok true := by
  refine ⟨by decide, by decide, by decide, by decide, by decide⟩


theorem checkRanges_ne_ok_false_of_bad (current : PyTime) :
    ∀ rs : List TimeRange,
      (∃ r ∈ rs, parseFails r.start = true ∨ parseFails r.stop = true) →
      Scheduler.checkRanges current rs ≠ .ok false := by
  intro rs
  induction rs with
  | nil => rintro ⟨r, hr, _⟩; cases hr
  | cons r0 rest ih =>
    rintro ⟨r, hr, hbad⟩
    cases hps : Scheduler.parse_time r0.start with
    | error e => simp [Scheduler.checkRanges, hps]
    | ok s =>
      cases hpe : Scheduler.parse_time r0.stop with
      | error e => simp [Scheduler.checkRanges, hps, hpe]
      | ok e =>
        by_cases hin : Scheduler.is_time_in_range current s e
        · simp [Scheduler.checkRanges, hps, hpe, hin]
        · have hstep : Scheduler.checkRanges current (r0 :: rest) =
              Scheduler.checkRanges current rest := by
            simp [Scheduler.checkRanges, hps, hpe, hin]
          rw [hstep]
          rcases List.mem_cons.mp hr with rfl | hmem
          · exfalso
            rcases hbad with hb | hb <;> simp [parseFails, hps, hpe] at hb
          · exact ih ⟨r, hmem, hbad⟩

theorem checkBlocks_ne_ok_false_of_bad (day : String) (current : PyTime) :
    ∀ bs : List AvailBlock,
      (∃ b ∈ bs, day ∈ b.days.map strLower ∧
        ∃ r ∈ b.time_ranges, parseFails r.start = true ∨ parseFails r.stop = true) →
      Scheduler.checkBlocks day current bs ≠ .ok false := by
  intro bs
  induction bs with
  | nil => rintro ⟨b, hb, _⟩; cases hb
  | cons b0 rest ih =>
    rintro ⟨b, hb, hday, hr⟩
    by_cases hd : day ∈ b0.days.map strLower
    · cases hcr : Scheduler.checkRanges current b0.time_ranges with
      | error e => simp [Scheduler.checkBlocks, hd, hcr]
      | ok v =>
        cases v with
        | true => simp [Scheduler.checkBlocks, hd, hcr]
        | false =>
          have hstep : Scheduler.checkBlocks day current (b0 :: rest) =
              Scheduler.checkBlocks day current rest := by
            simp [Scheduler.checkBlocks, hd, hcr]
          rw [hstep]
          rcases List.mem_cons.mp hb with rfl | hmem
          · exact absurd hcr (by
              have := checkRanges_ne_ok_false_of_bad current _ hr
              simpa using this)
          · exact ih ⟨b, hmem, hday, hr⟩
    · rcases List.mem_cons.mp hb with rfl | hmem
      · exact absurd hday hd
      · have hstep : Scheduler.checkBlocks day current (b0 :: rest) =
            Scheduler.checkBlocks day current rest := by
          simp [Scheduler.checkBlocks, hd]
        rw [hstep]
        exact ih ⟨b, hmem, hday, hr⟩

/-- Claim C5 counterexample: a schedule whose Monday block contains the
malformed time string `"bad"`, evaluated on a Wednesday: the package
`should_block` silently returns blocked without raising, and the legacy
evaluator even swallows the error when the malformed range is reached. -/
theorem c5_malformed_other_day_silent :
    Scheduler.should_block (some badMondaySched) ⟨2, ⟨10, 0⟩⟩ = .ok true ∧
    parseFails "bad" = true ∧
    Legacy.should_block (some badMondaySched) ⟨0, ⟨12, 0⟩⟩ = true := by
  refine ⟨by decide, by decide, by decide⟩

/-- Claim C5 (amended): the package `should_block` fails loudly — or has
already found an earlier matching range — whenever a malformed time
string sits in a block listed for the current weekday; it never
silently returns blocked in that case. (Malformed strings in blocks for
other days are skipped without an error, which is what the original
claim ruled out.) -/
theorem c5_malformed_reachable_fails_loudly
    (blocks : List AvailBlock) (now : Instant)
    (hbad : ∃ b ∈ blocks, dayName now.weekday ∈ b.days.map strLower ∧
      ∃ r ∈ b.time_ranges, parseFails r.start = true ∨ parseFails r.stop = true) :
    Scheduler.should_block (some ⟨some blocks⟩) now ≠ .ok true := by
  have h := checkBlocks_ne_ok_false_of_bad (dayName now.weekday) now.time blocks hbad
  cases hcb : Scheduler.checkBlocks (dayName now.weekday) now.time blocks with
  | error e => simp [Scheduler.should_block, hcb]
  | ok v =>
    cases v with
    | true => simp [Scheduler.should_block, hcb]
    | false => exact absurd hcb h

/-- Claim C5 witness: the amended theorem applied to the malformed-Monday
schedule on a Monday noon. -/
theorem c5_malformed_witness :
    Scheduler.should_block (some badMondaySched) ⟨0, ⟨12, 0⟩⟩ ≠ .ok true :=
  c5_malformed_reachable_fails_loudly [⟨["monday"], [⟨"bad", "10:00"⟩]⟩] ⟨0, ⟨12, 0⟩⟩
    (by decide)


set_option maxRecDepth 8000 in
/-- Claim C7: `acquire` first drops timestamps older than the window,
then, when the retained count has reached `max_requests`, waits exactly
until the oldest retained timestamp exits the window before recording
the new request (and returns the waited time, which is then positive);
below the limit it records immediately and returns 0. The final
conjuncts are the spec §8 scenario: after `maxRequests = 30` calls in
one window the 31st call waits 30 s, i.e. until the oldest call
(time 0) exits the 60 s window. -/
theorem c7_rate_limiter_acquire :
    (∀ (st : Client.RateLimiter) (now : ℤ),
      0 < st.max_requests →
      st.requests.Sorted (· ≤ ·) →
      (Client.RateLimiter.acquire st now).2.requests =
        st.requests.filter (fun ts => decide (now - st.window_seconds < ts)) ++
          [now + (Client.RateLimiter.acquire st now).1] ∧
      (Client.RateLimiter.acquire st now).2.max_requests = st.max_requests ∧
      (Client.RateLimiter.acquire st now).2.window_seconds = st.window_seconds ∧
      ((st.requests.filter (fun ts => decide (now - st.window_seconds < ts))).length <
          st.max_requests → (Client.RateLimiter.acquire st now).1 = 0) ∧
      (st.max_requests ≤
          (st.requests.filter (fun ts => decide (now - st.window_seconds < ts))).length →
        ∃ oldest,
          (st.requests.filter (fun ts => decide (now - st.window_seconds < ts))).head? =
            some oldest ∧
          (∀ ts ∈ st.requests.filter (fun ts => decide (now - st.window_seconds < ts)),
            oldest ≤ ts) ∧
          (Client.RateLimiter.acquire st now).1 = oldest - (now - st.window_seconds) ∧
          0 < (Client.RateLimiter.acquire st now).1 ∧
          oldest = (now + (Client.RateLimiter.acquire st now).1) - st.window_seconds)) ∧
    (Client.RateLimiter.acquire after30Calls 30).1 = 30 ∧
    (Client.RateLimiter.acquire after30Calls 30).2.requests =
      (List.range 30).map (fun t => (t : ℤ)) ++ [60] := by
  refine ⟨?_, by decide, by decide⟩
  intro st now hmax hsorted
  by_cases hlen : st.max_requests ≤
      (st.requests.filter (fun ts => decide (now - st.window_seconds < ts))).length
  · cases hkept : st.requests.filter (fun ts => decide (now - st.window_seconds < ts)) with
    | nil =>
      rw [hkept] at hlen
      simp at hlen
      omega
    | cons o tail =>
      rw [hkept] at hlen
      have ho : now - st.window_seconds < o := by
        have hmem : o ∈ st.requests.filter (fun ts => decide (now - st.window_seconds < ts)) := by
          rw [hkept]; exact List.mem_cons_self o tail
        simpa using (List.of_mem_filter hmem)
      have hacq : Client.RateLimiter.acquire st now =
          (o - (now - st.window_seconds),
            ⟨st.max_requests, st.window_seconds,
              (o :: tail) ++ [now + (o - (now - st.window_seconds))]⟩) := by
        unfold Client.RateLimiter.acquire
        dsimp only
        rw [hkept]
        rw [if_pos hlen]
        have hw : (0 : ℤ) < (o :: tail).headD 0 - (now - st.window_seconds) := by
          simp only [List.headD_cons]
          omega
        rw [if_pos hw]
        simp
      have hsortkept : (o :: tail).Sorted (· ≤ ·) := by
        rw [← hkept]
        exact hsorted.filter _
      have hmin : ∀ ts ∈ o :: tail, o ≤ ts := by
        intro ts hts
        rcases List.mem_cons.mp hts with rfl | hts
        · exact le_refl ts
        · exact (List.sorted_cons.mp hsortkept).1 ts hts
      rw [hacq]
      refine ⟨rfl, rfl, rfl, fun hlt => absurd hlen (by omega), fun _ => ?_⟩
      exact ⟨o, rfl, hmin, rfl, by omega, by ring⟩
  · push_neg at hlen
    have hacq : Client.RateLimiter.acquire st now =
        (0, ⟨st.max_requests, st.window_seconds,
          st.requests.filter (fun ts => decide (now - st.window_seconds < ts)) ++ [now]⟩) := by
      unfold Client.RateLimiter.acquire
      dsimp only
      rw [if_neg (by omega)]
    rw [hacq]
    exact ⟨by simp, rfl, rfl, fun _ => rfl, fun h => absurd h (by omega)⟩

/-- Claim C7 witness: the general `acquire` theorem applied to a
below-limit concrete state (one retained timestamp, limit 30): no wait
is needed. -/
theorem c7_rate_limiter_witness : (Client.RateLimiter.acquire ⟨30, 60, [0]⟩ 10).1 = 0 :=
  (c7_rate_limiter_acquire.1 ⟨30, 60, [0]⟩ 10 (by decide) (by simp)).2.2.2.1 (by decide)

/-- Claim C8: after `set(members)` at `t0`, `contains(m)` for a member
id `m` answers `some true` at every instant with `now - t0 < ttl`, and
once the TTL has elapsed both `get` and `contains` answer `none`
(unknown), never a default. -/
theorem c8_cache_ttl (st0 : Client.DenylistCache) (t0 t : ℤ)
    (members : List Client.Entry) (m : String)
    (hm : m ∈ members.map (fun e => e.id)) :
    (t - t0 < st0.ttl →
      Client.DenylistCache.contains (Client.DenylistCache.set st0 t0 members) m t =
        some true) ∧
    (st0.ttl ≤ t - t0 →
      Client.DenylistCache.contains (Client.DenylistCache.set st0 t0 members) m t = none ∧
      Client.DenylistCache.get (Client.DenylistCache.set st0 t0 members) t = none) := by
  constructor
  · intro hfresh
    simp [Client.DenylistCache.contains, Client.DenylistCache.is_valid,
      Client.DenylistCache.set, List.mem_dedup, hfresh]
    simpa using hm
  · intro hstale
    have hns : ¬(t - t0 < st0.ttl) := by omega
    simp [Client.DenylistCache.contains, Client.DenylistCache.get,
      Client.DenylistCache.is_valid, Client.DenylistCache.set, hns]

/-- Claim C8 witness: the TTL theorem applied to a concrete member and
concrete instants on both sides of the TTL boundary. -/
theorem c8_cache_ttl_witness :
    (((59 : ℤ) - 0 < (Client.DenylistCache.init 60).ttl →
      Client.DenylistCache.contains
        (Client.DenylistCache.set (Client.DenylistCache.init 60) 0 [⟨"x.example", true⟩])
        "x.example" 59 = some true) ∧
    ((Client.DenylistCache.init 60).ttl ≤ (59 : ℤ) - 0 →
      Client.DenylistCache.contains
        (Client.DenylistCache.set (Client.DenylistCache.init 60) 0 [⟨"x.example", true⟩])
        "x.example" 59 = none ∧
      Client.DenylistCache.get
        (Client.DenylistCache.set (Client.DenylistCache.init 60) 0 [⟨"x.example", true⟩])
        59 = none)) :=
  c8_cache_ttl (Client.DenylistCache.init 60) 0 59 [⟨"x.example", true⟩] "x.example"
    (by decide)


theorem cacheConsistent_applyCacheOp (st : Client.DenylistCache) (op : CacheOp)
    (_h : cacheConsistent st) : cacheConsistent (applyCacheOp st op) := by
  cases op with
  | set t v => simp [applyCacheOp, Client.DenylistCache.set, cacheConsistent]
  | invalidate => simp [applyCacheOp, Client.DenylistCache.invalidate, cacheConsistent]

theorem cacheConsistent_applyCacheOps (ops : List CacheOp) :
    ∀ st : Client.DenylistCache, cacheConsistent st → cacheConsistent (applyCacheOps st ops) := by
  induction ops with
  | nil => intro st h; exact h
  | cons op rest ih =>
    intro st h
    exact ih (applyCacheOp st op) (cacheConsistent_applyCacheOp st op h)

/-- Claim C9 counterexample: after `set([])` followed by the optimistic
`add_domain("x.example")`, `contains` answers `True` for `"x.example"`
while `get` still returns the data list `[]`, whose id set does not
contain it — the two views disagree. -/
theorem c9_optimistic_update_divergence :
    Client.DenylistCache.contains
      (Client.DenylistCache.add_domain
        (Client.DenylistCache.set (Client.DenylistCache.init 60) 0 []) "x.example")
      "x.example" 0 = some true ∧
    Client.DenylistCache.get
      (Client.DenylistCache.add_domain
        (Client.DenylistCache.set (Client.DenylistCache.init 60) 0 []) "x.example")
      0 = some [] := by
  constructor
  · decide
  · decide

/-- Claim C9 (amended): the cache is internally consistent under every
sequence of whole-state operations (`set`/`invalidate`): whenever `get`
returns a data list, `contains` answers exactly membership in that
ids of that list. The optimistic `add_domain`/`remove_domain` mutate only the
membership set and are excluded — after one of them the two views may
disagree until the next `set`, `invalidate`, or expiry. -/
theorem c9_consistency_amended (ttl : ℤ) (ops : List CacheOp) (d : String) (now : ℤ)
    (l : List Client.Entry)
    (hget : Client.DenylistCache.get (applyCacheOps (Client.DenylistCache.init ttl) ops) now =
      some l) :
    Client.DenylistCache.contains (applyCacheOps (Client.DenylistCache.init ttl) ops) d now =
      some (decide (d ∈ l.map (fun e => e.id))) := by
  have hcons : cacheConsistent (applyCacheOps (Client.DenylistCache.init ttl) ops) :=
    cacheConsistent_applyCacheOps ops (Client.DenylistCache.init ttl)
      (by simp [cacheConsistent, Client.DenylistCache.init])
  set st := applyCacheOps (Client.DenylistCache.init ttl) ops with hst
  by_cases hv : Client.DenylistCache.is_valid st now = true
  · have hdata : st._data = some l := by
      have := hget
      rw [Client.DenylistCache.get, if_pos hv] at this
      exact this
    rw [Client.DenylistCache.contains, if_pos hv]
    rw [cacheConsistent, hdata] at hcons
    rw [hcons]
    congr 1
    simp [List.mem_dedup]
  · exfalso
    rw [Client.DenylistCache.get, if_neg hv] at hget
    exact Option.noConfusion hget

/-- Claim C9 witness: the amended consistency theorem applied to a
concrete `set` history. -/
theorem c9_consistency_witness :
    Client.DenylistCache.contains
      (applyCacheOps (Client.DenylistCache.init 60) [.set 0 [⟨"x.example", true⟩]])
      "x.example" 0 =
      some (decide ("x.example" ∈ ([⟨"x.example", true⟩] : List Client.Entry).map
        (fun e => e.id))) :=
  c9_consistency_amended 60 [.set 0 [⟨"x.example", true⟩]] "x.example" 0
    [⟨"x.example", true⟩] (by decide)

theorem runFrom_spec (script : Nat → Client.Outcome) :
    ∀ (rem a : Nat),
      (a + 1 ≤ (Client.runFrom script a rem).attempts ∧
        (Client.runFrom script a rem).attempts ≤ a + rem + 1) ∧
      (Client.runFrom script a rem).waits =
        (List.range' a ((Client.runFrom script a rem).attempts - 1 - a)).map Client.backoff ∧
      (∀ k, a ≤ k → k + 1 < (Client.runFrom script a rem).attempts →
        Client.retryable (script k) = true) ∧
      (∀ v, (Client.runFrom script a rem).result = some v ↔
        script ((Client.runFrom script a rem).attempts - 1) = .success v) := by
  intro rem
  induction rem with
  | zero =>
    intro a
    cases hsa : script a with
    | success v =>
      simp only [Client.runFrom, hsa]
      exact ⟨⟨le_refl _, by omega⟩, by simp, fun k hk hk2 => absurd hk2 (by omega),
        fun v2 => by simp [hsa]⟩
    | badJson =>
      simp only [Client.runFrom, hsa]
      exact ⟨⟨le_refl _, by omega⟩, by simp, fun k hk hk2 => absurd hk2 (by omega),
        fun v2 => by simp [hsa]⟩
    | timeout =>
      simp only [Client.runFrom, hsa]
      exact ⟨⟨le_refl _, by omega⟩, by simp, fun k hk hk2 => absurd hk2 (by omega),
        fun v2 => by simp [hsa]⟩
    | httpError status =>
      simp only [Client.runFrom, hsa]
      exact ⟨⟨le_refl _, by omega⟩, by simp, fun k hk hk2 => absurd hk2 (by omega),
        fun v2 => by simp [hsa]⟩
    | reqError =>
      simp only [Client.runFrom, hsa]
      exact ⟨⟨le_refl _, by omega⟩, by simp, fun k hk hk2 => absurd hk2 (by omega),
        fun v2 => by simp [hsa]⟩
  | succ rem ih =>
    intro a
    have hrec :
        Client.runFrom script a (rem + 1) =
          Client.withWait (Client.backoff a) (Client.runFrom script (a + 1) rem) →
        Client.retryable (script a) = true →
        (a + 1 ≤ (Client.runFrom script a (rem + 1)).attempts ∧
          (Client.runFrom script a (rem + 1)).attempts ≤ a + (rem + 1) + 1) ∧
        (Client.runFrom script a (rem + 1)).waits =
          (List.range' a ((Client.runFrom script a (rem + 1)).attempts - 1 - a)).map
            Client.backoff ∧
        (∀ k, a ≤ k → k + 1 < (Client.runFrom script a (rem + 1)).attempts →
          Client.retryable (script k) = true) ∧
        (∀ v, (Client.runFrom script a (rem + 1)).result = some v ↔
          script ((Client.runFrom script a (rem + 1)).attempts - 1) = .success v) := by
      intro heq hra
      obtain ⟨⟨hlo, hhi⟩, hwaits, honly, hres⟩ := ih (a + 1)
      rw [heq]
      simp only [Client.withWait]
      refine ⟨⟨by omega, by omega⟩, ?_, ?_, ?_⟩
      · have hn : (Client.runFrom script (a + 1) rem).attempts - 1 - a =
            ((Client.runFrom script (a + 1) rem).attempts - 1 - (a + 1)) + 1 := by omega
        rw [hn, List.range'_succ, List.map_cons]
        exact congrArg (List.cons (Client.backoff a)) hwaits
      · intro k hk hk2
        rcases Nat.eq_or_lt_of_le hk with rfl | hk3
        · exact hra
        · exact honly k hk3 hk2
      · exact hres
    cases hsa : script a with
    | success v =>
      simp only [Client.runFrom, hsa]
      exact ⟨⟨le_refl _, by omega⟩, by simp, fun k hk hk2 => absurd hk2 (by omega),
        fun v2 => by simp [hsa]⟩
    | badJson =>
      simp only [Client.runFrom, hsa]
      exact ⟨⟨le_refl _, by omega⟩, by simp, fun k hk hk2 => absurd hk2 (by omega),
        fun v2 => by simp [hsa]⟩
    | timeout =>
      exact hrec (by simp [Client.runFrom, hsa]) (by simp [Client.retryable, hsa])
    | httpError status =>
      by_cases hst : status = 429 ∨ (500 ≤ status ∧ status < 600)
      · exact hrec (by simp [Client.runFrom, hsa, hst]) (by simp [Client.retryable, hsa, hst])
      · simp only [Client.runFrom, hsa, if_neg hst]
        exact ⟨⟨le_refl _, by omega⟩, by simp, fun k hk hk2 => absurd hk2 (by omega),
          fun v2 => by simp [hsa]⟩
    | reqError =>
      exact hrec (by simp [Client.runFrom, hsa]) (by simp [Client.retryable, hsa])

theorem runFrom_retry_prefix (script : Nat → Client.Outcome) :
    ∀ (k : Nat), ∀ (a rem : Nat) (v : Nat), k ≤ rem →
      (∀ j, a ≤ j → j < a + k → (script j = .timeout ∨ script j = .reqError)) →
      script (a + k) = .success v →
      Client.runFrom script a rem =
        ⟨some v, a + k + 1, (List.range' a k).map Client.backoff⟩ := by
  intro k
  induction k with
  | zero =>
    intro a rem v _ _ hsucc
    rw [Nat.add_zero] at hsucc
    cases rem <;> simp [Client.runFrom, hsucc]
  | succ k ih =>
    intro a rem v hk hpre hsucc
    obtain ⟨r, rfl⟩ : ∃ r, rem = r + 1 := ⟨rem - 1, by omega⟩
    have hstep : Client.runFrom script a (r + 1) =
        Client.withWait (Client.backoff a) (Client.runFrom script (a + 1) r) := by
      rcases hpre a (le_refl a) (by omega) with h | h <;> simp [Client.runFrom, h]
    have hsucc2 : script (a + 1 + k) = .success v := by
      have : a + 1 + k = a + (k + 1) := by omega
      rw [this]; exact hsucc
    have hpre2 : ∀ j, a + 1 ≤ j → j < a + 1 + k →
        (script j = .timeout ∨ script j = .reqError) := by
      intro j hj1 hj2
      exact hpre j (by omega) (by omega)
    rw [hstep, ih (a + 1) r v (by omega) hpre2 hsucc2]
    simp only [Client.withWait, List.range'_succ, List.map_cons,
      Client.RunResult.mk.injEq]
    exact ⟨trivial, by omega, trivial⟩

theorem runFrom_all_retryfail (script : Nat → Client.Outcome)
    (h : ∀ j, script j = .timeout ∨ script j = .reqError) :
    ∀ (rem a : Nat),
      Client.runFrom script a rem =
        ⟨none, a + rem + 1, (List.range' a rem).map Client.backoff⟩ := by
  intro rem
  induction rem with
  | zero =>
    intro a
    rcases h a with ha | ha <;> simp [Client.runFrom, ha]
  | succ rem ih =>
    intro a
    have hstep : Client.runFrom script a (rem + 1) =
        Client.withWait (Client.backoff a) (Client.runFrom script (a + 1) rem) := by
      rcases h a with ha | ha <;> simp [Client.runFrom, ha]
    rw [hstep, ih (a + 1)]
    simp only [Client.withWait, List.range'_succ, List.map_cons,
      Client.RunResult.mk.injEq]
    exact ⟨trivial, by omega, trivial⟩

/-- Claim C6 counterexample: a generic request-level transport failure
(`requests.exceptions.RequestException`, e.g. a connection error) on the
first attempt is retried — the run succeeds on attempt 2 after a 1 s
backoff — although it is neither a timeout nor an HTTP 429/5xx error,
so the retry set claimed ("only on request timeout, HTTP 429, or HTTP
5xx") is wrong. -/
theorem c6_connection_error_retried :
    Client.request 3 (fun n => if n = 0 then .reqError else .success 7) =
      ⟨some 7, 2, [1]⟩ ∧
    (Client.Outcome.reqError ≠ .timeout ∧
      ∀ status : Nat, Client.Outcome.reqError ≠ .httpError status) := by
  exact ⟨by decide, by decide, fun status h => Client.Outcome.noConfusion h⟩

/-- Claim C6 (amended): `request` issues at most `retries + 1` attempts;
the outcome of every non-final attempt belongs to the retryable set — which
is request timeout, HTTP 429/5xx, **or any other request-level
transport failure** (`RequestException`); before the retry for attempt
`k` (0-indexed) the client waits `backoff k = min(1 * 2^k, 30)`
seconds, so the wait list is always `[backoff 0, ..., backoff (n-2)]`
for `n` attempts; the run returns a value iff the final
attempt ends in a success (any other 4xx, a JSON decode failure, or
exhaustion all yield `none`); a client that times out twice then
succeeds returns the value with exactly 3 attempts after waits of 1 s
and 2 s; a client that times out on every attempt fails after
`retries + 1` attempts. -/
theorem c6_retry_policy_amended :
    (∀ (retries : Nat) (script : Nat → Client.Outcome),
      (Client.request retries script).attempts ≤ retries + 1) ∧
    (∀ (retries : Nat) (script : Nat → Client.Outcome) (k : Nat),
      k + 1 < (Client.request retries script).attempts →
      Client.retryable (script k) = true) ∧
    (∀ (retries : Nat) (script : Nat → Client.Outcome),
      (Client.request retries script).waits =
        (List.range ((Client.request retries script).attempts - 1)).map Client.backoff) ∧
    (∀ (retries : Nat) (script : Nat → Client.Outcome) (v : Nat),
      (Client.request retries script).result = some v ↔
        script ((Client.request retries script).attempts - 1) = .success v) ∧
    (∀ (retries : Nat) (script : Nat → Client.Outcome) (v : Nat),
      2 ≤ retries → script 0 = .timeout → script 1 = .timeout → script 2 = .success v →
      Client.request retries script = ⟨some v, 3, [1, 2]⟩) ∧
    (∀ retries : Nat,
      Client.request retries (fun _ => .timeout) =
        ⟨none, retries + 1, (List.range retries).map Client.backoff⟩) := by
  refine ⟨?_, ?_, ?_, ?_, ?_, ?_⟩
  · intro retries script
    have h := (runFrom_spec script retries 0).1.2
    simpa [Client.request] using h
  · intro retries script k hk
    exact (runFrom_spec script retries 0).2.2.1 k (Nat.zero_le k) hk
  · intro retries script
    have h := (runFrom_spec script retries 0).2.1
    simpa [Client.request, List.range_eq_range'] using h
  · intro retries script v
    exact (runFrom_spec script retries 0).2.2.2 v
  · intro retries script v h2 h0 h1 hs
    have hpre : ∀ j, 0 ≤ j → j < 0 + 2 → (script j = .timeout ∨ script j = .reqError) := by
      intro j _ hj
      interval_cases j
      · exact Or.inl h0
      · exact Or.inl h1
    have h := runFrom_retry_prefix script 2 0 retries v h2 hpre (by simpa using hs)
    rw [Client.request, h]
    have hw : (List.range' 0 2).map Client.backoff = [1, 2] := by decide
    rw [hw]
  · intro retries
    have h := runFrom_all_retryfail (fun _ => .timeout) (fun _ => Or.inl rfl) retries 0
    rw [Client.request, h]
    simp [List.range_eq_range']

/-- Claim C6 witness: the two-timeouts-then-
success scenario of the amended retry theorem at concrete inputs. -/
theorem c6_retry_policy_witness :
    Client.request 3 (fun n => if n < 2 then .timeout else .success 9) =
      ⟨some 9, 3, [1, 2]⟩ :=
  c6_retry_policy_amended.2.2.2.2.1 3 (fun n => if n < 2 then .timeout else .success 9) 9
    (by decide) (by decide) (by decide) (by decide)

/-- Claim C10: a generic request-level transport failure
(`RequestException`) is retried with the same exponential backoff
schedule up to the same retry limit: a script failing that way on every
attempt exhausts `retries + 1` attempts, waits `backoff 0..retries-1`,
and returns `none`; a script failing that way `k ≤ retries` times then
succeeding returns the value on attempt `k + 1` with the same backoff
prefix. -/
theorem c10_request_exception_retry :
    (∀ retries : Nat,
      Client.request retries (fun _ => .reqError) =
        ⟨none, retries + 1, (List.range retries).map Client.backoff⟩) ∧
    (∀ (retries k v : Nat) (script : Nat → Client.Outcome),
      k ≤ retries → (∀ j, j < k → script j = .reqError) → script k = .success v →
      Client.request retries script = ⟨some v, k + 1, (List.range k).map Client.backoff⟩) := by
  constructor
  · intro retries
    have h := runFrom_all_retryfail (fun _ => .reqError) (fun _ => Or.inr rfl) retries 0
    rw [Client.request, h]
    simp [List.range_eq_range']
  · intro retries k v script hk hpre hs
    have hpre2 : ∀ j, 0 ≤ j → j < 0 + k → (script j = .timeout ∨ script j = .reqError) := by
      intro j _ hj
      exact Or.inr (hpre j (by omega))
    have h := runFrom_retry_prefix script k 0 retries v hk hpre2 (by simpa using hs)
    rw [Client.request, h]
    simp [List.range_eq_range']

/-- Claim C10 witness: two connection-error attempts then a success:
3 attempts, backoffs 1 s and 2 s, successful result. -/
theorem c10_request_exception_witness :
    Client.request 3 (fun n => if n < 2 then .reqError else .success 7) =
      ⟨some 7, 2 + 1, (List.range 2).map Client.backoff⟩ :=
  c10_request_exception_retry.2 3 2 7 (fun n => if n < 2 then .reqError else .success 7)
    (by decide) (by intro j hj; interval_cases j <;> rfl) (by decide)
